import Mathlib

/-!
# Notes widget (`script.js`): persistence and query layer

A shallow embedding of `script.js`: the `notes` object store the script opens
in IndexedDB, the form state and `editingNoteId`, and the functions `initDB`,
`saveNote`, `loadNotes`, `editNote`, `deleteNote`, `clearForm` and the click
listener of the save button.

Conventions of the embedding.

* A request's `onsuccess` / `onerror` callback is run to completion as part of
  the function that issued the request (single tab, no concurrent writer).
* `loadNotes` is the list it passes to `displayNotes`. `displayNotes` writes
  title and content of these notes unescaped into the `innerHTML` of
  `notesContainer`; the browser parses them as HTML and runs the inline event
  handlers of the elements they create. `Page` keeps the displayed notes, and
  an inline handler that calls one of the script's functions is an event of
  the page; which calls a text holds is the parameter `handlers`.
* The runtime services the script calls (`Array.prototype.sort`,
  `String.prototype.includes`, `String.prototype.trim`, the `Date` constructor,
  the IndexedDB object store with its key generator) are modelled after their
  specifications; `String.prototype.toLowerCase` is a parameter.
-/

namespace NotesDB

/-! ## Data model -/

/-- What the script can observe of a record's `timestamp` field: whether it is
falsy (`note.timestamp || 0`, `!isoString`) and, when it is not, the time value
of `new Date(timestamp)`, which is a number of milliseconds since the epoch or
`NaN` (Invalid Date). -/
inductive Timestamp where
  /-- A falsy field: absent, `undefined`, `null` or the empty string. -/
  | missing : Timestamp
  /-- A string that `new Date` parses, with its time value in milliseconds. -/
  | parsed (ms : Int) : Timestamp
  /-- A non-empty string for which `new Date` yields Invalid Date. -/
  | unparseable : Timestamp
  deriving DecidableEq, Repr

/-- A record of the `notes` object store: `{id, title, content, timestamp}`. -/
structure Note where
  id : Nat
  title : String
  content : String
  timestamp : Timestamp
  deriving DecidableEq, Repr

/-- The errors a request of the script can end with. -/
inductive StoreError where
  | constraintError : StoreError
  | versionError : StoreError
  deriving DecidableEq, Repr

/-! ## Strings -/

/-- `String.prototype.includes` on the characters of the two strings: `q`
starts at some position of `s`. -/
def includesChars : List Char → List Char → Bool
  | [], q => q.isEmpty
  | c :: cs, q => q.isPrefixOf (c :: cs) || includesChars cs q

/-- `s.includes(q)`. -/
def includes (s q : String) : Bool :=
  includesChars s.data q.data

/-- The code points `String.prototype.trim` strips: ECMAScript WhiteSpace
(TAB, VT, FF, ZWNBSP and the space separators) and LineTerminator. -/
def isWhiteSpace (c : Char) : Bool :=
  let n := c.toNat
  n == 0x09 || n == 0x0B || n == 0x0C || n == 0xFEFF
    || n == 0x20 || n == 0xA0 || n == 0x1680 || (0x2000 ≤ n && n ≤ 0x200A)
    || n == 0x202F || n == 0x205F || n == 0x3000
    || n == 0x0A || n == 0x0D || n == 0x2028 || n == 0x2029

/-- `s.trim()`: white space removed from both ends. -/
def trim (s : String) : String :=
  ⟨((s.data.dropWhile isWhiteSpace).reverse.dropWhile isWhiteSpace).reverse⟩

/-! ## The `notes` object store -/

/-- The `notes` object store (`keyPath: 'id'`, `autoIncrement: true`): its
records in ascending key order and the current number of its key generator. -/
structure ObjectStore where
  records : List Note
  keyGenerator : Nat
  deriving DecidableEq, Repr

/-- The largest key the key generator hands out, `2^53`. -/
def maxGeneratedKey : Nat := 2 ^ 53

/-- The object store right after `createObjectStore`: no record, generator at 1. -/
def ObjectStore.empty : ObjectStore := ⟨[], 1⟩

/-- `objectStore.get(key)`: the record stored under `key`, if any. The request
succeeds in both cases. -/
def ObjectStore.get (s : ObjectStore) (key : Nat) : Option Note :=
  s.records.find? (fun n => n.id == key)

/-- `objectStore.getAll()`: every record, in ascending key order. -/
def ObjectStore.getAll (s : ObjectStore) : List Note :=
  s.records

/-- Store a record under its key, replacing the record that has this key or
inserting at the key's position. -/
def storeRecord : List Note → Note → List Note
  | [], n => [n]
  | r :: rs, n =>
    if n.id < r.id then n :: r :: rs
    else if n.id = r.id then n :: rs
    else r :: storeRecord rs n

/-- `objectStore.put(note)` with `note.id = key`: the record replaces the one
stored under `key`, or is inserted when there is none; the key, capped at
`2^53`, moves the generator past it when it is at or above the generator's
current number. -/
def ObjectStore.put (s : ObjectStore) (key : Nat) (title content : String)
    (timestamp : Timestamp) : Except StoreError ObjectStore :=
  .ok { records := storeRecord s.records ⟨key, title, content, timestamp⟩
        keyGenerator :=
          if s.keyGenerator ≤ min key maxGeneratedKey then min key maxGeneratedKey + 1
          else s.keyGenerator }

/-- `objectStore.add(note)` with no `id` in `note`: the key generator supplies
the key, which is injected at the key path; the request fails with a
ConstraintError when the generator is exhausted or the key is taken. On
success the request's result is the key. -/
def ObjectStore.add (s : ObjectStore) (title content : String)
    (timestamp : Timestamp) : Except StoreError (Nat × ObjectStore) :=
  let key := s.keyGenerator
  if maxGeneratedKey < key then .error .constraintError
  else if (s.get key).isSome then .error .constraintError
  else .ok (key, { records := storeRecord s.records ⟨key, title, content, timestamp⟩
                   keyGenerator := key + 1 })

/-- `objectStore.delete(key)`: the record under `key` is removed; the request
succeeds whether or not there was one. -/
def ObjectStore.delete (s : ObjectStore) (key : Nat) : ObjectStore :=
  { s with records := s.records.filter (fun n => n.id != key) }

/-! ## `loadNotes` -/

/-- The time value of `new Date(timestamp || 0)`; `none` stands for `NaN`. -/
def dateValue : Timestamp → Option Int
  | .missing => some 0
  | .parsed ms => some ms
  | .unparseable => none

/-- The comparator of `loadNotes`,
`(a, b) => new Date(b.timestamp || 0) - new Date(a.timestamp || 0)`;
`none` stands for `NaN`. Only the sign of the difference is used, and the
rounding of the subtraction to a double preserves it. -/
def compareFn (a b : Note) : Option Int :=
  match dateValue b.timestamp, dateValue a.timestamp with
  | some tb, some ta => some (tb - ta)
  | _, _ => none

/-- The abstract operation SortCompare of `Array.prototype.sort`: the
comparator's result, with `NaN` taken as `+0`. -/
def sortCompare (a b : Note) : Int :=
  (compareFn a b).getD 0

/-- Insertion of `x` in front of the first element it does not sort after. -/
def insertNote (x : Note) : List Note → List Note
  | [] => [x]
  | y :: ys => if sortCompare x y ≤ 0 then x :: y :: ys else y :: insertNote x ys

/-- `notes.sort(compareFn)`: a stable sort (elements that compare equal keep
their order), here by insertion. -/
def arraySort : List Note → List Note
  | [] => []
  | x :: xs => insertNote x (arraySort xs)

/-- `loadNotes(searchQuery)`: the list handed to `displayNotes`. A non-empty
query keeps the notes whose lower-cased title includes the lower-cased query;
the notes are then sorted, most recent first. -/
def loadNotes (toLowerCase : String → String) (store : ObjectStore)
    (searchQuery : String) : List Note :=
  let notes := store.getAll
  let notes :=
    if searchQuery ≠ "" then
      notes.filter (fun note => includes (toLowerCase note.title) (toLowerCase searchQuery))
    else notes
  arraySort notes

/-! ## Form state and the handlers -/

/-- The elements of the page the script writes: the two input fields, the
label of the save button and the `display` style of the cancel button. -/
structure Form where
  noteTitle : String
  noteContent : String
  saveBtnText : String
  cancelBtnDisplay : String
  deriving DecidableEq, Repr

/-- The state of the page: the object store behind `db`, the form and the
global `editingNoteId` (`none` is `null`). -/
structure App where
  store : ObjectStore
  form : Form
  editingNoteId : Option Nat
  deriving DecidableEq, Repr

/-- How a handler ended. -/
inductive Report where
  /-- The request's `onsuccess` ran; `key` is the request's result for a write. -/
  | saved (key : Nat) : Report
  /-- The request's `onsuccess` ran (no key involved). -/
  | succeeded : Report
  /-- The request's `onerror` ran. -/
  | failed (e : StoreError) : Report
  /-- The `onsuccess` callback threw a TypeError. -/
  | typeError : Report
  /-- `confirm` returned false. -/
  | declined : Report
  /-- The save listener showed its alert and returned. -/
  | alerted : Report
  deriving DecidableEq, Repr

/-- `clearForm()`. -/
def clearForm (app : App) : App :=
  { app with form := ⟨"", "", "Save Note", "none"⟩, editingNoteId := none }

/-- `saveNote(title, content)` at clock reading `now` (the time value of
`new Date()`): `put` under `editingNoteId` when it is not null, `add`
otherwise; on success the form is cleared. The `loadNotes()` of the success
callback is `afterSave`. -/
def saveNote (app : App) (title content : String) (now : Int) : App × Report :=
  match app.editingNoteId with
  | some id =>
    match app.store.put id title content (.parsed now) with
    | .ok s => (clearForm { app with store := s }, .saved id)
    | .error e => (app, .failed e)
  | none =>
    match app.store.add title content (.parsed now) with
    | .ok (key, s) => (clearForm { app with store := s }, .saved key)
    | .error e => (app, .failed e)

/-- `editNote(id)`: the lookup always succeeds; the callback reads
`note.title` first, which throws when the result is `undefined`. -/
def editNote (app : App) (id : Nat) : App × Report :=
  match app.store.get id with
  | none => (app, .typeError)
  | some note =>
    ({ app with form := ⟨note.title, note.content, "Update Note", "inline-block"⟩
                editingNoteId := some id }, .succeeded)

/-- `deleteNote(id)`, with the answer given to `confirm`. The `loadNotes()`
of the success callback is `afterDelete`. -/
def deleteNote (app : App) (id : Nat) (confirmed : Bool) : App × Report :=
  if !confirmed then (app, .declined)
  else ({ app with store := app.store.delete id }, .succeeded)

/-- The click listener of `saveBtn`. -/
def saveBtnClick (app : App) (now : Int) : App × Report :=
  let title := trim app.form.noteTitle
  let content := trim app.form.noteContent
  if title = "" ∨ content = "" then (app, .alerted)
  else saveNote app title content now

/-- A call of one of the script's global functions, as the inline event
handler of an element of the page makes it. -/
inductive Call where
  | saveNote (title content : String) : Call
  | editNote (id : Nat) : Call
  | deleteNote (id : Nat) (confirmed : Bool) : Call
  | clearForm : Call
  | loadNotes (query : String) : Call
  deriving DecidableEq, Repr

/-- The page together with what `displayNotes` last wrote: the notes whose
cards make up the `innerHTML` of `notesContainer`. -/
structure Page where
  app : App
  notesContainer : List Note
  deriving DecidableEq, Repr

/-- The texts `displayNotes` interpolates unescaped into the `innerHTML` of a
note card: `<h3>${note.title}</h3>` and `<p>${note.content}</p>`. -/
def markupTexts (notes : List Note) : List String :=
  notes.map (fun n => n.title) ++ notes.map (fun n => n.content)

/-- An inline handler can run `call` when a text displayed in the container
holds it, `handlers text` being the calls made by the inline event handlers of
the elements the browser creates when it parses `text` as HTML. -/
def handlerEnabled (handlers : String → List Call) (page : Page) (call : Call) : Bool :=
  (markupTexts page.notesContainer).any (fun text => decide (call ∈ handlers text))

/-- The success callback of `saveNote` calls `loadNotes()`: after a successful
save the container shows the result of `loadNotes` with the empty query. -/
def afterSave (toLowerCase : String → String) (shown : List Note) (r : App × Report) : Page :=
  match r.2 with
  | .saved _ => ⟨r.1, loadNotes toLowerCase r.1.store ""⟩
  | _ => ⟨r.1, shown⟩

/-- The success callback of `deleteNote` calls `loadNotes()`. -/
def afterDelete (toLowerCase : String → String) (shown : List Note) (r : App × Report) : Page :=
  match r.2 with
  | .succeeded => ⟨r.1, loadNotes toLowerCase r.1.store ""⟩
  | _ => ⟨r.1, shown⟩

/-- The page after a call of one of the script's functions at clock reading
`now`, the container rewritten as the function's callbacks do. -/
def runCall (toLowerCase : String → String) (page : Page) (now : Int) : Call → Page
  | .saveNote title content =>
    afterSave toLowerCase page.notesContainer (saveNote page.app title content now)
  | .editNote id => { page with app := (editNote page.app id).1 }
  | .deleteNote id confirmed =>
    afterDelete toLowerCase page.notesContainer (deleteNote page.app id confirmed)
  | .clearForm => { page with app := clearForm page.app }
  | .loadNotes query => { page with notesContainer := loadNotes toLowerCase page.app.store query }

/-- What happens on the page: what the user does, and the inline handlers of
the displayed markup the browser runs. -/
inductive Event where
  | typeTitle (value : String) : Event
  | typeContent (value : String) : Event
  | saveClick (now : Int) : Event
  | editClick (id : Nat) : Event
  | deleteClick (id : Nat) (confirmed : Bool) : Event
  | cancelClick : Event
  | searchInput (query : String) : Event
  | inlineHandler (call : Call) (now : Int) : Event
  deriving DecidableEq, Repr

/-- The page after one event. An inline handler that no displayed text holds
does not run. The clicks other than the save click read no clock, so the
reading passed on for them is immaterial. -/
def step (toLowerCase : String → String) (handlers : String → List Call) (page : Page) :
    Event → Page
  | .typeTitle v =>
    { page with app := { page.app with form := { page.app.form with noteTitle := v } } }
  | .typeContent v =>
    { page with app := { page.app with form := { page.app.form with noteContent := v } } }
  | .saveClick now => afterSave toLowerCase page.notesContainer (saveBtnClick page.app now)
  | .editClick id => runCall toLowerCase page 0 (.editNote id)
  | .deleteClick id confirmed => runCall toLowerCase page 0 (.deleteNote id confirmed)
  | .cancelClick => runCall toLowerCase page 0 .clearForm
  | .searchInput query => runCall toLowerCase page 0 (.loadNotes query)
  | .inlineHandler call now =>
    if handlerEnabled handlers page call then runCall toLowerCase page now call else page

/-- The page after a sequence of events. -/
def run (toLowerCase : String → String) (handlers : String → List Call) (page : Page)
    (events : List Event) : Page :=
  events.foldl (step toLowerCase handlers) page

/-- The clock readings of a sequence of events: the times of the clicks on the
save button and of the inline handlers. -/
def clockReadings : List Event → List Int
  | [] => []
  | .saveClick now :: es => now :: clockReadings es
  | .inlineHandler _ now :: es => now :: clockReadings es
  | _ :: es => clockReadings es

/-- The page when the script has opened a fresh database, the form as
`clearForm` leaves it. -/
def App.initial : App :=
  ⟨ObjectStore.empty, ⟨"", "", "Save Note", "none"⟩, none⟩

/-- The fresh page after the `loadNotes()` of `initDB`: no note displayed. -/
def Page.initial : Page :=
  ⟨App.initial, []⟩

/-- The inline handlers of the texts of the examples: the `onerror` handler of
the title that is an `img` element whose source does not load, none for the
texts without markup. -/
def exampleHandlers (text : String) : List Call :=
  if text = "<img src=x onerror=\"saveNote('','')\">" then [.saveNote "" ""] else []

/-- A store operation with the value `editingNoteId` has when it is issued. -/
inductive StoreOp where
  | save (editing : Option Nat) (title content : String) (now : Int) : StoreOp
  | delete (id : Nat) : StoreOp
  deriving DecidableEq, Repr

/-- One store operation: the page afterwards and how the handler ended. -/
def applyOp (app : App) : StoreOp → App × Report
  | .save editing title content now =>
    saveNote { app with editingNoteId := editing } title content now
  | .delete id => deleteNote app id true

/-- The id the key generator assigned in one store operation: the result of a
successful save made with `editingNoteId` null. -/
def assignedId : StoreOp → Report → Option Nat
  | .save none _ _ _, .saved key => some key
  | _, _ => none

/-- The ids the key generator assigned along a sequence of store operations,
in order: the results of the successful saves made with `editingNoteId`
null. -/
def assignedIds (app : App) : List StoreOp → List Nat
  | [] => []
  | op :: ops =>
    (assignedId op (applyOp app op).2).toList ++ assignedIds (applyOp app op).1 ops

/-! ## `initDB` -/

/-- An index of an object store. -/
structure IndexDef where
  name : String
  keyPath : String
  unique : Bool
  deriving DecidableEq, Repr

/-- An object store of the database with its schema and content. -/
structure StoreDef where
  name : String
  keyPath : String
  autoIncrement : Bool
  indexes : List IndexDef
  content : ObjectStore
  deriving DecidableEq, Repr

/-- The database `NotesDB`. -/
structure Database where
  version : Nat
  objectStores : List StoreDef
  deriving DecidableEq, Repr

def DB_VERSION : Nat := 1

def STORE_NAME : String := "notes"

/-- `db.objectStoreNames.contains(name)`. -/
def Database.containsStore (db : Database) (name : String) : Bool :=
  db.objectStores.any (fun s => s.name == name)

/-- `db.createObjectStore(name, {keyPath, autoIncrement})` followed by the
`createIndex` calls on the new store; a ConstraintError when the name is in use. -/
def Database.createObjectStore (db : Database) (name keyPath : String)
    (autoIncrement : Bool) (indexes : List IndexDef) : Except StoreError Database :=
  if db.containsStore name then .error .constraintError
  else .ok { db with objectStores :=
      db.objectStores ++ [⟨name, keyPath, autoIncrement, indexes, ObjectStore.empty⟩] }

/-- The `onupgradeneeded` callback of `initDB`. -/
def onupgradeneeded (db : Database) : Except StoreError Database :=
  if !db.containsStore STORE_NAME then
    db.createObjectStore STORE_NAME "id" true [⟨"title", "title", false⟩]
  else .ok db

/-- `initDB()`, from the state of the database on disk (`none`: there is no
database of this name) to the database `db` is set to. `indexedDB.open`
creates a missing database at version 0, runs the upgrade callback when the
stored version is below the requested one, and fails with a VersionError when
it is above. -/
def initDB (disk : Option Database) : Except StoreError Database :=
  let db := disk.getD ⟨0, []⟩
  if DB_VERSION < db.version then .error .versionError
  else if db.version < DB_VERSION then onupgradeneeded { db with version := DB_VERSION }
  else .ok db

/-- The schema of a database: its object stores without their content. -/
def Database.schema (db : Database) : List (String × String × Bool × List IndexDef) :=
  db.objectStores.map (fun s => (s.name, s.keyPath, s.autoIncrement, s.indexes))

/-- What `String.prototype.toLowerCase` does on strings of ASCII letters, for
the examples: `A`-`Z` become `a`-`z`. -/
def asciiToLowerCase (s : String) : String :=
  ⟨s.data.map Char.toLower⟩

/-! ## Specification-level notions -/

/-- Substring, in the words of the specification: `q` occurs in `s` between
some leading and some trailing characters. -/
def IsSubstring (q s : String) : Prop :=
  ∃ before after : List Char, s.data = before ++ q.data ++ after

/-- The title of `n`, lower-cased, contains the query, lower-cased. -/
def TitleContains (toLowerCase : String → String) (query : String) (n : Note) : Prop :=
  IsSubstring (toLowerCase query) (toLowerCase n.title)

/-- The time a note sorts by: the time value of `new Date(timestamp || 0)`,
defined when the timestamp is not an unparseable string. -/
def sortTime (n : Note) : Int :=
  (dateValue n.timestamp).getD 0

/-! ## Lemmas on strings -/

theorem isPrefixOf_iff_append (q s : List Char) :
    q.isPrefixOf s = true ↔ ∃ t, s = q ++ t := by
  induction q generalizing s with
  | nil => simp
  | cons a q ih =>
    cases s with
    | nil => simp
    | cons b s =>
      simp only [List.isPrefixOf, Bool.and_eq_true, beq_iff_eq, ih, List.cons_append,
        List.cons.injEq]
      constructor
      · rintro ⟨rfl, t, rfl⟩
        exact ⟨t, rfl, rfl⟩
      · rintro ⟨t, rfl, rfl⟩
        exact ⟨rfl, t, rfl⟩

theorem includesChars_iff (s q : List Char) :
    includesChars s q = true ↔ ∃ before after, s = before ++ q ++ after := by
  induction s with
  | nil =>
    simp only [includesChars, List.isEmpty_eq_true]
    constructor
    · rintro rfl
      exact ⟨[], [], rfl⟩
    · rintro ⟨b, a, h⟩
      have h1 := congrArg List.length h
      simp at h1
      exact List.length_eq_zero.mp (by omega)
  | cons c cs ih =>
    simp only [includesChars, Bool.or_eq_true, isPrefixOf_iff_append, ih]
    constructor
    · rintro (⟨t, ht⟩ | ⟨b, a, h⟩)
      · exact ⟨[], t, by simpa using ht⟩
      · exact ⟨c :: b, a, by simp [h]⟩
    · rintro ⟨b, a, h⟩
      cases b with
      | nil => exact Or.inl ⟨a, by simpa using h⟩
      | cons x b =>
        simp only [List.cons_append, List.cons.injEq] at h
        exact Or.inr ⟨b, a, h.2⟩

theorem includes_iff (s q : String) : includes s q = true ↔ IsSubstring q s := by
  unfold includes IsSubstring
  exact includesChars_iff s.data q.data

/-! ## Lemmas on the sort -/

theorem insertNote_perm (x : Note) (l : List Note) : (insertNote x l).Perm (x :: l) := by
  induction l with
  | nil => exact List.Perm.refl _
  | cons y ys ih =>
    unfold insertNote
    split
    · exact List.Perm.refl _
    · exact (List.Perm.cons y ih).trans (List.Perm.swap x y ys)

theorem arraySort_perm (l : List Note) : (arraySort l).Perm l := by
  induction l with
  | nil => exact List.Perm.refl _
  | cons x xs ih =>
    unfold arraySort
    exact (insertNote_perm x _).trans (List.Perm.cons x ih)

theorem sortCompare_eq (a b : Note) (ha : a.timestamp ≠ .unparseable)
    (hb : b.timestamp ≠ .unparseable) : sortCompare a b = sortTime b - sortTime a := by
  unfold sortCompare compareFn sortTime
  cases hta : a.timestamp <;> cases htb : b.timestamp <;> simp_all [dateValue]

theorem insertNote_sorted (x : Note) (l : List Note) (hx : x.timestamp ≠ .unparseable)
    (hl : ∀ n ∈ l, n.timestamp ≠ .unparseable)
    (hs : l.Pairwise (fun a b => sortTime b ≤ sortTime a)) :
    (insertNote x l).Pairwise (fun a b => sortTime b ≤ sortTime a) := by
  induction l with
  | nil => simp [insertNote]
  | cons y ys ih =>
    have hy : y.timestamp ≠ .unparseable := hl y (List.mem_cons_self _ _)
    have hys : ∀ n ∈ ys, n.timestamp ≠ .unparseable :=
      fun n hn => hl n (List.mem_cons_of_mem _ hn)
    rw [List.pairwise_cons] at hs
    unfold insertNote
    rw [sortCompare_eq x y hx hy]
    split
    · rename_i hle
      rw [List.pairwise_cons]
      refine ⟨?_, List.pairwise_cons.mpr hs⟩
      intro b hb
      rcases List.mem_cons.mp hb with rfl | hb
      · omega
      · have := hs.1 b hb
        omega
    · rename_i hgt
      rw [List.pairwise_cons]
      refine ⟨?_, ih hys hs.2⟩
      intro b hb
      rcases List.mem_cons.mp ((insertNote_perm x ys).subset hb) with rfl | hb
      · omega
      · exact hs.1 b hb

theorem arraySort_sorted (l : List Note) (hl : ∀ n ∈ l, n.timestamp ≠ .unparseable) :
    (arraySort l).Pairwise (fun a b => sortTime b ≤ sortTime a) := by
  induction l with
  | nil => simp [arraySort]
  | cons x xs ih =>
    unfold arraySort
    have hxs : ∀ n ∈ xs, n.timestamp ≠ .unparseable :=
      fun n hn => hl n (List.mem_cons_of_mem _ hn)
    exact insertNote_sorted x _ (hl x (List.mem_cons_self _ _))
      (fun n hn => hxs n ((arraySort_perm xs).subset hn)) (ih hxs)

theorem loadNotes_perm (toLowerCase : String → String) (store : ObjectStore) (q : String) :
    (loadNotes toLowerCase store q).Perm
      (if q ≠ "" then
        store.records.filter (fun n => includes (toLowerCase n.title) (toLowerCase q))
       else store.records) := by
  unfold loadNotes ObjectStore.getAll
  exact arraySort_perm _

theorem loadNotes_subset (toLowerCase : String → String) (store : ObjectStore) (q : String)
    (n : Note) (hn : n ∈ loadNotes toLowerCase store q) : n ∈ store.records := by
  have h := (loadNotes_perm toLowerCase store q).subset hn
  split at h
  · exact (List.mem_filter.mp h).1
  · exact h

theorem loadNotes_pairwise (toLowerCase : String → String) (store : ObjectStore) (q : String)
    (hl : ∀ n ∈ store.records, n.timestamp ≠ .unparseable) :
    (loadNotes toLowerCase store q).Pairwise (fun a b => sortTime b ≤ sortTime a) := by
  unfold loadNotes ObjectStore.getAll
  apply arraySort_sorted
  intro n hn
  split at hn
  · exact hl n (List.mem_filter.mp hn).1
  · exact hl n hn

/-! ## Lemmas on the object store -/

theorem find_storeRecord_same (rs : List Note) (n : Note) :
    (storeRecord rs n).find? (fun r => r.id == n.id) = some n := by
  induction rs with
  | nil => simp [storeRecord]
  | cons r rs ih =>
    unfold storeRecord
    split
    · simp
    · split
      · simp
      · rename_i h1 h2
        have : (r.id == n.id) = false := by
          simp only [beq_eq_false_iff_ne, ne_eq]
          exact fun h => h2 h.symm
        rw [List.find?_cons, this]
        exact ih

theorem find_storeRecord_other (rs : List Note) (n : Note) (k : Nat) (hk : k ≠ n.id) :
    (storeRecord rs n).find? (fun r => r.id == k) = rs.find? (fun r => r.id == k) := by
  have hn : (n.id == k) = false := by
    simp only [beq_eq_false_iff_ne, ne_eq]
    exact fun h => hk h.symm
  induction rs with
  | nil => simp [storeRecord, hn]
  | cons r rs ih =>
    unfold storeRecord
    split
    · rw [List.find?_cons, hn]
    · split
      · rename_i h1 h2
        have hr : (r.id == k) = false := by
          simp only [beq_eq_false_iff_ne, ne_eq]
          exact fun h => hk (h.symm.trans h2.symm)
        rw [List.find?_cons, hn, List.find?_cons, hr]
      · rw [List.find?_cons, List.find?_cons, ih]

theorem mem_storeRecord (rs : List Note) (n m : Note) (hm : m ∈ storeRecord rs n) :
    m = n ∨ m ∈ rs := by
  induction rs with
  | nil =>
    simp only [storeRecord, List.mem_singleton] at hm
    exact Or.inl hm
  | cons r rs ih =>
    unfold storeRecord at hm
    split at hm
    · rcases List.mem_cons.mp hm with h | h
      · exact Or.inl h
      · exact Or.inr h
    · split at hm
      · rcases List.mem_cons.mp hm with h | h
        · exact Or.inl h
        · exact Or.inr (List.mem_cons_of_mem _ h)
      · rcases List.mem_cons.mp hm with h | h
        · exact Or.inr (h ▸ List.mem_cons_self _ _)
        · rcases ih h with h | h
          · exact Or.inl h
          · exact Or.inr (List.mem_cons_of_mem _ h)

theorem storeRecord_perm_of_absent (rs : List Note) (n : Note)
    (h : ∀ r ∈ rs, r.id ≠ n.id) : (storeRecord rs n).Perm (n :: rs) := by
  induction rs with
  | nil => exact List.Perm.refl _
  | cons r rs ih =>
    have hr : r.id ≠ n.id := h r (List.mem_cons_self _ _)
    unfold storeRecord
    split
    · exact List.Perm.refl _
    · split
      · rename_i h1 h2
        exact absurd h2.symm hr
      · exact (List.Perm.cons r (ih (fun x hx => h x (List.mem_cons_of_mem _ hx)))).trans
          (List.Perm.swap n r rs)

theorem find_filter_other (rs : List Note) (X Y : Nat) (hY : Y ≠ X) :
    (rs.filter (fun n => n.id != X)).find? (fun n => n.id == Y)
      = rs.find? (fun n => n.id == Y) := by
  induction rs with
  | nil => rfl
  | cons r rs ih =>
    rw [List.filter_cons]
    by_cases h : r.id = Y
    · have hX : (r.id != X) = true := by
        simp only [bne_iff_ne, ne_eq]
        exact fun hx => hY (h.symm.trans hx)
      have hYb : (r.id == Y) = true := by simpa using h
      rw [if_pos hX, List.find?_cons, List.find?_cons, hYb]
    · have hYb : (r.id == Y) = false := by simpa using h
      by_cases hX : (r.id != X) = true
      · simp only [if_pos hX, List.find?_cons, hYb]
        exact ih
      · simp only [if_neg hX, List.find?_cons, hYb]
        exact ih

theorem find_none_filter (rs : List Note) (k : Nat)
    (h : rs.find? (fun r => r.id == k) = none) :
    rs.filter (fun r => r.id != k) = rs := by
  rw [List.filter_eq_self]
  intro r hr
  have := List.find?_eq_none.mp h r hr
  simpa using this

/-! ## Lemmas on the key generator -/

theorem add_ok (s s1 : ObjectStore) (title content : String) (ts : Timestamp) (key : Nat)
    (h : s.add title content ts = .ok (key, s1)) :
    key = s.keyGenerator ∧ s1.keyGenerator = key + 1 ∧
      s1.records = storeRecord s.records ⟨key, title, content, ts⟩ ∧
      key ≤ maxGeneratedKey ∧ s.get key = none := by
  unfold ObjectStore.add at h
  simp only at h
  split_ifs at h with h1 h2
  simp only [Except.ok.injEq, Prod.mk.injEq] at h
  obtain ⟨rfl, rfl⟩ := h
  refine ⟨rfl, rfl, rfl, Nat.le_of_not_lt h1, ?_⟩
  simpa using h2

theorem saveNote_new (app : App) (title content : String) (now : Int)
    (hedit : app.editingNoteId = none) :
    (∃ key s1, app.store.add title content (.parsed now) = .ok (key, s1) ∧
      saveNote app title content now = (clearForm { app with store := s1 }, .saved key)) ∨
    (∃ e, saveNote app title content now = (app, .failed e)) := by
  unfold saveNote
  rw [hedit]
  simp only
  cases hadd : app.store.add title content (.parsed now) with
  | error e => exact Or.inr ⟨e, rfl⟩
  | ok r =>
    obtain ⟨key, s1⟩ := r
    exact Or.inl ⟨key, s1, rfl, rfl⟩

theorem saveNote_edit (app : App) (title content : String) (now : Int) (id : Nat)
    (hedit : app.editingNoteId = some id) :
    saveNote app title content now =
      (clearForm { app with store :=
        { records := storeRecord app.store.records ⟨id, title, content, .parsed now⟩
          keyGenerator :=
            if app.store.keyGenerator ≤ min id maxGeneratedKey then min id maxGeneratedKey + 1
            else app.store.keyGenerator } }, .saved id) := by
  unfold saveNote
  rw [hedit]
  rfl

theorem applyOp_keyGenerator_le (app : App) (op : StoreOp) :
    app.store.keyGenerator ≤ (applyOp app op).1.store.keyGenerator := by
  cases op with
  | save editing title content now =>
    cases editing with
    | some id =>
      show _ ≤ (saveNote { app with editingNoteId := some id } title content now).1.store.keyGenerator
      rw [saveNote_edit _ title content now id rfl]
      simp only [clearForm]
      split
      · omega
      · exact Nat.le_refl _
    | none =>
      show _ ≤ (saveNote { app with editingNoteId := none } title content now).1.store.keyGenerator
      rcases saveNote_new { app with editingNoteId := none } title content now rfl with
        ⟨key, s1, hadd, hsave⟩ | ⟨e, hsave⟩
      · rw [hsave]
        obtain ⟨hk, hg, -⟩ := add_ok _ _ _ _ _ _ hadd
        simp only [clearForm]
        rw [hg, hk]
        exact Nat.le_succ _
      · rw [hsave]
  | delete id =>
    simp [applyOp, deleteNote, ObjectStore.delete]

theorem applyOp_saved_key (app : App) (title content : String) (now : Int) (key : Nat)
    (h : (applyOp app (.save none title content now)).2 = .saved key) :
    key = app.store.keyGenerator ∧
      (applyOp app (.save none title content now)).1.store.keyGenerator = key + 1 := by
  change (saveNote { app with editingNoteId := none } title content now).2 = .saved key at h
  show _ ∧ (saveNote { app with editingNoteId := none } title content now).1.store.keyGenerator = _
  rcases saveNote_new { app with editingNoteId := none } title content now rfl with
    ⟨k, s1, hadd, hsave⟩ | ⟨e, hsave⟩
  · rw [hsave] at h ⊢
    simp only [Report.saved.injEq] at h
    subst h
    obtain ⟨hk, hg, -⟩ := add_ok _ _ _ _ _ _ hadd
    exact ⟨hk, by simpa [clearForm] using hg⟩
  · rw [hsave] at h
    cases h

theorem assignedId_some (op : StoreOp) (r : Report) (k : Nat) (h : assignedId op r = some k) :
    ∃ title content now, op = .save none title content now ∧ r = .saved k := by
  unfold assignedId at h
  split at h
  · simp only [Option.some.injEq] at h
    subst h
    exact ⟨_, _, _, rfl, rfl⟩
  · cases h

theorem assignedIds_ge (app : App) (ops : List StoreOp) :
    ∀ k ∈ assignedIds app ops, app.store.keyGenerator ≤ k := by
  induction ops generalizing app with
  | nil => simp [assignedIds]
  | cons op ops ih =>
    intro k hk
    have hmono := applyOp_keyGenerator_le app op
    simp only [assignedIds, List.mem_append, Option.mem_toList, Option.mem_def] at hk
    rcases hk with hk | hk
    · obtain ⟨t, c, n, rfl, hr⟩ := assignedId_some _ _ _ hk
      exact Nat.le_of_eq (applyOp_saved_key app _ _ _ _ hr).1.symm
    · exact Nat.le_trans hmono (ih _ k hk)

theorem assignedIds_pairwise (app : App) (ops : List StoreOp) :
    (assignedIds app ops).Pairwise (fun a b => a < b) := by
  induction ops generalizing app with
  | nil => simp [assignedIds]
  | cons op ops ih =>
    simp only [assignedIds]
    rw [List.pairwise_append]
    refine ⟨?_, ih _, ?_⟩
    · cases assignedId op (applyOp app op).2 <;> simp
    · intro a ha b hb
      simp only [Option.mem_toList, Option.mem_def] at ha
      obtain ⟨t, c, n, rfl, hr⟩ := assignedId_some _ _ _ ha
      have h1 := applyOp_saved_key app _ _ _ _ hr
      have h2 := assignedIds_ge _ ops b hb
      omega

/-! ## Lemmas on the handlers -/

theorem saveNote_records (app : App) (title content : String) (now : Int) (n : Note)
    (hn : n ∈ (saveNote app title content now).1.store.records) :
    n ∈ app.store.records ∨
      (∃ id, n = ⟨id, title, content, .parsed now⟩) := by
  cases hedit : app.editingNoteId with
  | some id =>
    rw [saveNote_edit app title content now id hedit] at hn
    simp only [clearForm] at hn
    rcases mem_storeRecord _ _ _ hn with h | h
    · exact Or.inr ⟨id, h⟩
    · exact Or.inl h
  | none =>
    rcases saveNote_new app title content now hedit with ⟨key, s1, hadd, hsave⟩ | ⟨e, hsave⟩
    · rw [hsave] at hn
      simp only [clearForm] at hn
      rw [(add_ok _ _ _ _ _ _ hadd).2.2.1] at hn
      rcases mem_storeRecord _ _ _ hn with h | h
      · exact Or.inr ⟨key, h⟩
      · exact Or.inl h
    · rw [hsave] at hn
      exact Or.inl hn

theorem afterSave_app (toLowerCase : String → String) (shown : List Note)
    (r : App × Report) : (afterSave toLowerCase shown r).app = r.1 := by
  unfold afterSave
  split <;> rfl

theorem afterDelete_app (toLowerCase : String → String) (shown : List Note)
    (r : App × Report) : (afterDelete toLowerCase shown r).app = r.1 := by
  unfold afterDelete
  split <;> rfl

theorem deleteNote_records (app : App) (id : Nat) (confirmed : Bool) (n : Note)
    (hn : n ∈ (deleteNote app id confirmed).1.store.records) : n ∈ app.store.records := by
  unfold deleteNote at hn
  split_ifs at hn
  · exact hn
  · simp only [ObjectStore.delete] at hn
    exact (List.mem_filter.mp hn).1

theorem editNote_store (app : App) (id : Nat) : (editNote app id).1.store = app.store := by
  unfold editNote
  split <;> rfl

theorem runCall_records (toLowerCase : String → String) (page : Page) (now : Int)
    (call : Call) (n : Note) (hn : n ∈ (runCall toLowerCase page now call).app.store.records) :
    n ∈ page.app.store.records ∨
      (∃ id title content, call = .saveNote title content ∧
        n = ⟨id, title, content, .parsed now⟩) := by
  cases call with
  | saveNote title content =>
    simp only [runCall, afterSave_app] at hn
    rcases saveNote_records _ _ _ _ _ hn with h | ⟨id, h⟩
    · exact Or.inl h
    · exact Or.inr ⟨id, title, content, rfl, h⟩
  | editNote id =>
    simp only [runCall, editNote_store] at hn
    exact Or.inl hn
  | deleteNote id confirmed =>
    simp only [runCall, afterDelete_app] at hn
    exact Or.inl (deleteNote_records _ _ _ _ hn)
  | clearForm => exact Or.inl hn
  | loadNotes query => exact Or.inl hn

theorem step_records (toLowerCase : String → String) (handlers : String → List Call)
    (page : Page) (ev : Event) (n : Note)
    (hn : n ∈ (step toLowerCase handlers page ev).app.store.records) :
    n ∈ page.app.store.records ∨
      (∃ id now, ev = .saveClick now ∧
        n = ⟨id, trim page.app.form.noteTitle, trim page.app.form.noteContent, .parsed now⟩ ∧
        trim page.app.form.noteTitle ≠ "" ∧ trim page.app.form.noteContent ≠ "") ∨
      (∃ id title content now, ev = .inlineHandler (.saveNote title content) now ∧
        n = ⟨id, title, content, .parsed now⟩) := by
  cases ev with
  | typeTitle v => exact Or.inl hn
  | typeContent v => exact Or.inl hn
  | saveClick now =>
    simp only [step, afterSave_app, saveBtnClick] at hn
    split_ifs at hn with h
    · exact Or.inl hn
    · rcases saveNote_records _ _ _ _ _ hn with h1 | ⟨id, h1⟩
      · exact Or.inl h1
      · have h2 := not_or.mp h
        exact Or.inr (Or.inl ⟨id, now, rfl, h1, h2.1, h2.2⟩)
  | editClick id =>
    rcases runCall_records _ _ _ _ _ hn with h | ⟨_, _, _, h, _⟩
    · exact Or.inl h
    · cases h
  | deleteClick id confirmed =>
    rcases runCall_records _ _ _ _ _ hn with h | ⟨_, _, _, h, _⟩
    · exact Or.inl h
    · cases h
  | cancelClick => exact Or.inl hn
  | searchInput q => exact Or.inl hn
  | inlineHandler call now =>
    simp only [step] at hn
    split_ifs at hn
    · rcases runCall_records _ _ _ _ _ hn with h | ⟨id, title, content, rfl, h⟩
      · exact Or.inl h
      · exact Or.inr (Or.inr ⟨id, title, content, now, rfl, h⟩)
    · exact Or.inl hn

theorem run_records_invariant (toLowerCase : String → String)
    (handlers : String → List Call) (P : Note → Prop) (page : Page) (events : List Event)
    (hstart : ∀ n ∈ page.app.store.records, P n)
    (hsave : ∀ id title content now, Event.saveClick now ∈ events →
      title ≠ "" → content ≠ "" → P ⟨id, title, content, .parsed now⟩)
    (hcall : ∀ id title content now,
      Event.inlineHandler (.saveNote title content) now ∈ events →
      P ⟨id, title, content, .parsed now⟩) :
    ∀ n ∈ (run toLowerCase handlers page events).app.store.records, P n := by
  induction events generalizing page with
  | nil => exact hstart
  | cons ev evs ih =>
    show ∀ n ∈ (run toLowerCase handlers (step toLowerCase handlers page ev) evs).app.store.records,
      P n
    apply ih
    · intro n hn
      rcases step_records toLowerCase handlers page ev n hn with
        h | ⟨id, now, rfl, rfl, h1, h2⟩ | ⟨id, title, content, now, rfl, rfl⟩
      · exact hstart n h
      · exact hsave id _ _ now (List.mem_cons_self _ _) h1 h2
      · exact hcall id title content now (List.mem_cons_self _ _)
    · intro id title content now hmem
      exact hsave id title content now (List.mem_cons_of_mem _ hmem)
    · intro id title content now hmem
      exact hcall id title content now (List.mem_cons_of_mem _ hmem)

theorem mem_clockReadings (events : List Event) (now : Int)
    (h : Event.saveClick now ∈ events ∨ ∃ call, Event.inlineHandler call now ∈ events) :
    now ∈ clockReadings events := by
  induction events with
  | nil =>
    rcases h with h | ⟨_, h⟩ <;> cases h
  | cons ev evs ih =>
    have hrest : (Event.saveClick now ∈ evs ∨ ∃ call, Event.inlineHandler call now ∈ evs) →
        now ∈ clockReadings (ev :: evs) := by
      intro h1
      have h2 := ih h1
      cases ev <;> simp [clockReadings, h2]
    rcases h with h | ⟨call, h⟩
    · rcases List.mem_cons.mp h with h1 | h1
      · subst h1
        simp [clockReadings]
      · exact hrest (Or.inl h1)
    · rcases List.mem_cons.mp h with h1 | h1
      · subst h1
        simp [clockReadings]
      · exact hrest (Or.inr ⟨call, h1⟩)

/-- Along a run from an empty store, every stored timestamp is a clock
reading of the run: when no reading exceeds `now`, no stored timestamp does. -/
theorem run_timestamps_before (toLowerCase : String → String)
    (handlers : String → List Call) (page : Page) (events : List Event) (now : Int)
    (hempty : page.app.store.records = [])
    (hclock : ∀ t ∈ clockReadings events, t ≤ now) :
    ∀ n ∈ (run toLowerCase handlers page events).app.store.records,
      ∃ t, n.timestamp = .parsed t ∧ t ≤ now := by
  apply run_records_invariant
  · intro n hn
    rw [hempty] at hn
    cases hn
  · intro id title content t hmem _ _
    exact ⟨t, rfl, hclock t (mem_clockReadings events t (Or.inl hmem))⟩
  · intro id title content t hmem
    exact ⟨t, rfl, hclock t (mem_clockReadings events t (Or.inr ⟨_, hmem⟩))⟩

/-- Along a run from an empty store in which no inline handler calls
`saveNote`, every stored note has a non-empty title, a non-empty content and
a clock reading as timestamp. -/
theorem run_nonempty_without_handlers (toLowerCase : String → String)
    (handlers : String → List Call) (page : Page) (events : List Event)
    (hempty : page.app.store.records = [])
    (hnone : ∀ title content now,
      Event.inlineHandler (.saveNote title content) now ∉ events) :
    ∀ n ∈ (run toLowerCase handlers page events).app.store.records,
      n.title ≠ "" ∧ n.content ≠ "" ∧ ∃ ms, n.timestamp = .parsed ms := by
  apply run_records_invariant
  · intro n hn
    rw [hempty] at hn
    cases hn
  · intro id title content now _ ht hc
    exact ⟨ht, hc, now, rfl⟩
  · intro id title content now hmem
    exact absurd hmem (hnone title content now)

/-- The click listener of `saveBtn` leaves the page as it is when the trimmed
title or the trimmed content is empty, and otherwise calls `saveNote` with
the two trimmed values. -/
theorem saveBtnClick_guard (app : App) (now : Int) :
    (trim app.form.noteTitle = "" ∨ trim app.form.noteContent = "" →
      saveBtnClick app now = (app, .alerted)) ∧
    (trim app.form.noteTitle ≠ "" → trim app.form.noteContent ≠ "" →
      saveBtnClick app now =
        saveNote app (trim app.form.noteTitle) (trim app.form.noteContent) now) := by
  constructor
  · intro h
    simp only [saveBtnClick]
    rw [if_pos h]
  · intro ht hc
    simp only [saveBtnClick]
    rw [if_neg (not_or.mpr ⟨ht, hc⟩)]

theorem editNote_absent (app : App) (X : Nat) (hnone : app.store.get X = none) :
    editNote app X = (app, .typeError) := by
  unfold editNote
  rw [hnone]

/-- A save with `editingNoteId` null succeeds with the generator's current
number as key when the generator is not exhausted and lies above every
stored key. -/
theorem saveNote_new_succeeds (app : App) (title content : String) (now : Int)
    (hedit : app.editingNoteId = none) (hmax : app.store.keyGenerator ≤ maxGeneratedKey)
    (hkeys : ∀ n ∈ app.store.records, n.id < app.store.keyGenerator) :
    (saveNote app title content now).2 = .saved app.store.keyGenerator := by
  have hget : app.store.get app.store.keyGenerator = none := by
    unfold ObjectStore.get
    rw [List.find?_eq_none]
    intro n hn
    have := hkeys n hn
    simp only [beq_iff_eq]
    omega
  unfold saveNote
  rw [hedit]
  simp only [ObjectStore.add, hget, Option.isSome_none]
  rw [if_neg (Nat.not_lt.mpr hmax)]
  simp

/-! ## Lemmas on the schema setup -/

theorem onupgradeneeded_ok (d d1 : Database) (h : onupgradeneeded d = .ok d1) :
    ((d.containsStore STORE_NAME = true ∧ d1.objectStores = d.objectStores) ∨
     (d.containsStore STORE_NAME = false ∧ d1.objectStores = d.objectStores ++
        [⟨STORE_NAME, "id", true, [⟨"title", "title", false⟩], ObjectStore.empty⟩])) ∧
    d1.version = d.version := by
  unfold onupgradeneeded at h
  cases hc : d.containsStore STORE_NAME with
  | true =>
    simp only [hc, Bool.not_true, Bool.false_eq_true, if_false, Except.ok.injEq] at h
    subst h
    exact ⟨Or.inl ⟨rfl, rfl⟩, rfl⟩
  | false =>
    simp only [hc, Bool.not_false, if_true, Database.createObjectStore,
      Bool.false_eq_true, if_false, Except.ok.injEq] at h
    subst h
    exact ⟨Or.inr ⟨rfl, rfl⟩, rfl⟩

theorem onupgradeneeded_twice (d : Database) :
    ∃ d1, onupgradeneeded d = .ok d1 ∧ onupgradeneeded d1 = .ok d1 ∧
      ∀ s ∈ d.objectStores, s ∈ d1.objectStores := by
  cases hc : d.containsStore STORE_NAME with
  | true =>
    have h1 : onupgradeneeded d = .ok d := by
      simp [onupgradeneeded, hc]
    exact ⟨d, h1, h1, fun s hs => hs⟩
  | false =>
    refine ⟨{ d with objectStores := d.objectStores ++
        [⟨STORE_NAME, "id", true, [⟨"title", "title", false⟩], ObjectStore.empty⟩] }, ?_, ?_, ?_⟩
    · simp [onupgradeneeded, Database.createObjectStore, hc]
    · have h2 : Database.containsStore { d with objectStores := d.objectStores ++
          [⟨STORE_NAME, "id", true, [⟨"title", "title", false⟩], ObjectStore.empty⟩] }
          STORE_NAME = true := by
        simp [Database.containsStore]
      simp [onupgradeneeded, h2]
    · intro s hs
      exact List.mem_append_left _ hs

theorem containsStore_of_schema (d : Database)
    (h : d.schema = [("notes", "id", true, [⟨"title", "title", false⟩])]) :
    d.objectStores.any (fun s => s.name == STORE_NAME) = true := by
  unfold Database.schema at h
  cases hs : d.objectStores with
  | nil =>
    rw [hs] at h
    cases h
  | cons s rest =>
    rw [hs] at h
    simp only [List.map_cons, List.cons.injEq, Prod.mk.injEq] at h
    simp [h.1.1, STORE_NAME]

/-! ## Claims on `loadNotes` -/

/-- C1. For a non-empty query `q`, the list `loadNotes(q)` hands to
`displayNotes` holds every stored note whose lower-cased title contains the
lower-cased `q` as a substring exactly as often as the store does, and no
other note; for the empty query it is a rearrangement of the stored notes; and
for every query no note appears twice when none is stored twice. -/
theorem loadNotes_exactly_matching (toLowerCase : String → String) (store : ObjectStore)
    (q : String) :
    (q ≠ "" → ∀ n : Note,
      (TitleContains toLowerCase q n →
        (loadNotes toLowerCase store q).count n = store.records.count n) ∧
      (¬ TitleContains toLowerCase q n → n ∉ loadNotes toLowerCase store q)) ∧
    (loadNotes toLowerCase store "").Perm store.records ∧
    (store.records.Nodup → (loadNotes toLowerCase store q).Nodup) := by
  refine ⟨?_, ?_, ?_⟩
  · intro hq n
    have hperm := loadNotes_perm toLowerCase store q
    rw [if_pos hq] at hperm
    constructor
    · intro hn
      rw [hperm.count_eq, List.count_filter]
      exact (includes_iff _ _).mpr hn
    · intro hn hmem
      have := (List.mem_filter.mp (hperm.subset hmem)).2
      exact hn ((includes_iff _ _).mp this)
  · have hperm := loadNotes_perm toLowerCase store ""
    simpa using hperm
  · intro hnodup
    have hperm := loadNotes_perm toLowerCase store q
    rw [hperm.nodup_iff]
    split
    · exact hnodup.filter _
    · exact hnodup

/-- Witness of C1: the scenario of the specification, query `shop`. -/
theorem loadNotes_exactly_matching_witness :
    "shop" ≠ "" ∧ ∀ n : Note,
      (TitleContains asciiToLowerCase "shop" n →
        (loadNotes asciiToLowerCase
          ⟨[⟨1, "Shopping", "milk", .parsed 1000⟩, ⟨2, "Work", "report", .parsed 2000⟩], 3⟩
          "shop").count n =
        (([⟨1, "Shopping", "milk", .parsed 1000⟩, ⟨2, "Work", "report", .parsed 2000⟩] :
          List Note)).count n) ∧
      (¬ TitleContains asciiToLowerCase "shop" n →
        n ∉ loadNotes asciiToLowerCase
          ⟨[⟨1, "Shopping", "milk", .parsed 1000⟩, ⟨2, "Work", "report", .parsed 2000⟩], 3⟩
          "shop") :=
  ⟨by decide,
   (loadNotes_exactly_matching asciiToLowerCase
      ⟨[⟨1, "Shopping", "milk", .parsed 1000⟩, ⟨2, "Work", "report", .parsed 2000⟩], 3⟩
      "shop").1 (by decide)⟩

/-- C2. When every stored timestamp is a valid date string, the list produced
by `loadNotes` is ordered by timestamp descending: of two adjacent notes the
first has a timestamp greater than or equal to the second's. -/
theorem loadNotes_descending (toLowerCase : String → String) (store : ObjectStore)
    (q : String) (hvalid : ∀ n ∈ store.records, ∃ ms, n.timestamp = .parsed ms) :
    ∀ (i : Nat) (a b : Note),
      (loadNotes toLowerCase store q)[i]? = some a →
      (loadNotes toLowerCase store q)[i + 1]? = some b →
      ∃ ta tb, a.timestamp = .parsed ta ∧ b.timestamp = .parsed tb ∧ tb ≤ ta := by
  intro i a b ha hb
  have hl : ∀ n ∈ store.records, n.timestamp ≠ .unparseable := by
    intro n hn h
    obtain ⟨ms, hms⟩ := hvalid n hn
    rw [hms] at h
    cases h
  have hpw := loadNotes_pairwise toLowerCase store q hl
  obtain ⟨hi, hai⟩ := List.getElem?_eq_some.mp ha
  obtain ⟨hj, hbj⟩ := List.getElem?_eq_some.mp hb
  have hle := (List.pairwise_iff_getElem.mp hpw) i (i + 1) hi hj (Nat.lt_succ_self i)
  rw [hai, hbj] at hle
  obtain ⟨ta, hta⟩ := hvalid a
    (loadNotes_subset toLowerCase store q a (hai ▸ List.getElem_mem _))
  obtain ⟨tb, htb⟩ := hvalid b
    (loadNotes_subset toLowerCase store q b (hbj ▸ List.getElem_mem _))
  refine ⟨ta, tb, hta, htb, ?_⟩
  simpa [sortTime, hta, htb, dateValue] using hle

/-- Witness of C2: the scenario of the specification, empty query. -/
theorem loadNotes_descending_witness :
    (∀ n ∈ ([⟨1, "Shopping", "milk", .parsed 1000⟩, ⟨2, "Work", "report", .parsed 2000⟩] :
        List Note), ∃ ms, n.timestamp = .parsed ms) ∧
    ∀ (i : Nat) (a b : Note),
      (loadNotes asciiToLowerCase
        ⟨[⟨1, "Shopping", "milk", .parsed 1000⟩, ⟨2, "Work", "report", .parsed 2000⟩], 3⟩
        "")[i]? = some a →
      (loadNotes asciiToLowerCase
        ⟨[⟨1, "Shopping", "milk", .parsed 1000⟩, ⟨2, "Work", "report", .parsed 2000⟩], 3⟩
        "")[i + 1]? = some b →
      ∃ ta tb, a.timestamp = .parsed ta ∧ b.timestamp = .parsed tb ∧ tb ≤ ta :=
  ⟨by simp,
   loadNotes_descending asciiToLowerCase
     ⟨[⟨1, "Shopping", "milk", .parsed 1000⟩, ⟨2, "Work", "report", .parsed 2000⟩], 3⟩ ""
     (by simp)⟩

/-- The scenario of the specification: `list("")` is `[Work, Shopping]` and
`list("shop")` is `[Shopping]`. -/
theorem loadNotes_scenario :
    loadNotes asciiToLowerCase
      ⟨[⟨1, "Shopping", "milk", .parsed 1000⟩, ⟨2, "Work", "report", .parsed 2000⟩], 3⟩ ""
      = [⟨2, "Work", "report", .parsed 2000⟩, ⟨1, "Shopping", "milk", .parsed 1000⟩] ∧
    loadNotes asciiToLowerCase
      ⟨[⟨1, "Shopping", "milk", .parsed 1000⟩, ⟨2, "Work", "report", .parsed 2000⟩], 3⟩ "shop"
      = [⟨1, "Shopping", "milk", .parsed 1000⟩] := by
  constructor <;> decide

/-- C3, as stated, fails: with a note stamped `1969-12-31T23:59:59.000Z` (time
value -1000) under key 1 and a note without timestamp under key 2,
`loadNotes()` lists the note without timestamp first, before the note that has
a valid timestamp. -/
theorem loadNotes_missing_before_valid :
    loadNotes asciiToLowerCase
      ⟨[⟨1, "Old", "a", .parsed (-1000)⟩, ⟨2, "Bare", "b", .missing⟩], 3⟩ ""
      = [⟨2, "Bare", "b", .missing⟩, ⟨1, "Old", "a", .parsed (-1000)⟩] := by
  decide

/-- A note whose timestamp string does not parse makes the comparator return
`NaN`: under key 1, in front of a note with a valid timestamp, it stays in
front. -/
theorem loadNotes_unparseable_stays :
    loadNotes asciiToLowerCase
      ⟨[⟨1, "Odd", "a", .unparseable⟩, ⟨2, "Fine", "b", .parsed 1000⟩], 3⟩ ""
      = [⟨1, "Odd", "a", .unparseable⟩, ⟨2, "Fine", "b", .parsed 1000⟩] := by
  decide

/-- C3, amended. When no stored timestamp is an unparseable string, every
note without a timestamp appears in the result of `loadNotes` after every note
whose valid timestamp is later than the epoch: a missing timestamp sorts as
time value 0. -/
theorem loadNotes_missing_after_later (toLowerCase : String → String) (store : ObjectStore)
    (q : String) (hparse : ∀ n ∈ store.records, n.timestamp ≠ .unparseable) :
    ∀ (i j : Nat) (a b : Note) (ms : Int),
      (loadNotes toLowerCase store q)[i]? = some a →
      (loadNotes toLowerCase store q)[j]? = some b →
      a.timestamp = .missing → b.timestamp = .parsed ms → 0 < ms → j < i := by
  intro i j a b ms ha hb hta htb hms
  have hpw := loadNotes_pairwise toLowerCase store q hparse
  obtain ⟨hi, hai⟩ := List.getElem?_eq_some.mp ha
  obtain ⟨hj, hbj⟩ := List.getElem?_eq_some.mp hb
  by_contra hlt
  rcases Nat.lt_or_eq_of_le (Nat.le_of_not_lt hlt) with hij | hij
  · have hle := (List.pairwise_iff_getElem.mp hpw) i j hi hj hij
    rw [hai, hbj] at hle
    simp [sortTime, hta, htb, dateValue] at hle
    omega
  · subst hij
    rw [hai] at hbj
    rw [hbj, htb] at hta
    cases hta

/-- Witness of C3, amended: a note without timestamp under key 1 and a note
stamped after the epoch under key 2. -/
theorem loadNotes_missing_after_later_witness :
    (∀ n ∈ ([⟨1, "Bare", "b", .missing⟩, ⟨2, "New", "a", .parsed 1000⟩] : List Note),
      n.timestamp ≠ .unparseable) ∧
    ∀ (i j : Nat) (a b : Note) (ms : Int),
      (loadNotes asciiToLowerCase
        ⟨[⟨1, "Bare", "b", .missing⟩, ⟨2, "New", "a", .parsed 1000⟩], 3⟩ "")[i]? = some a →
      (loadNotes asciiToLowerCase
        ⟨[⟨1, "Bare", "b", .missing⟩, ⟨2, "New", "a", .parsed 1000⟩], 3⟩ "")[j]? = some b →
      a.timestamp = .missing → b.timestamp = .parsed ms → 0 < ms → j < i :=
  ⟨by simp,
   loadNotes_missing_after_later asciiToLowerCase
     ⟨[⟨1, "Bare", "b", .missing⟩, ⟨2, "New", "a", .parsed 1000⟩], 3⟩ "" (by simp)⟩

/-! ## Claims on the store operations -/

/-- C4. Along every sequence of store operations (saves without an editing
id, saves with an editing id, deletes), from every state, the ids assigned to
the saves made with `editingNoteId` null are strictly increasing, hence each
is distinct from every id assigned earlier, whatever was deleted in between. -/
theorem assignedIds_never_reused (app : App) (ops : List StoreOp) :
    (assignedIds app ops).Pairwise (fun earlier later => earlier < later) ∧
    (assignedIds app ops).Nodup := by
  have h := assignedIds_pairwise app ops
  exact ⟨h, h.imp (fun hlt => Nat.ne_of_lt hlt)⟩

/-- The scenario of the specification, continued: ids 1 and 2 are assigned,
note 1 is deleted, and the next two new notes get ids 3 and 4 although a save
with editing id 1 came in between. -/
theorem assignedIds_scenario :
    assignedIds App.initial
      [.save none "Shopping" "milk" 1000, .save none "Work" "report" 2000, .delete 1,
       .save none "Again" "x" 3000, .save (some 1) "Back" "y" 4000,
       .save none "Last" "z" 5000] = [1, 2, 3, 4] := by
  decide

/-- C5. When the store holds a note under id `X`, `saveNote(title, content)`
with `editingNoteId = X` succeeds, and a lookup of `X` afterwards returns the
record with exactly the given title and content and the current time as
timestamp, which is not before the old timestamp `t` when the clock did not
go back (`t ≤ now`). -/
theorem saveNote_replaces (app : App) (X : Nat) (old : Note) (title content : String)
    (now t : Int) (hedit : app.editingNoteId = some X) (_hold : app.store.get X = some old)
    (ht : old.timestamp = .parsed t) (hclock : t ≤ now) :
    (saveNote app title content now).2 = .saved X ∧
    (saveNote app title content now).1.store.get X = some ⟨X, title, content, .parsed now⟩ ∧
    (∀ Y, Y ≠ X → (saveNote app title content now).1.store.get Y = app.store.get Y) ∧
    sortTime old ≤ sortTime ⟨X, title, content, .parsed now⟩ := by
  rw [saveNote_edit app title content now X hedit]
  refine ⟨rfl, ?_, ?_, ?_⟩
  · exact find_storeRecord_same app.store.records ⟨X, title, content, .parsed now⟩
  · intro Y hY
    exact find_storeRecord_other app.store.records ⟨X, title, content, .parsed now⟩ Y hY
  · simpa [sortTime, ht, dateValue] using hclock

/-- Witness of C5: the note `Shopping` saved at time 1000 is edited at time 3000. -/
theorem saveNote_replaces_witness :
    (saveNote ⟨⟨[⟨1, "Shopping", "milk", .parsed 1000⟩], 2⟩,
        ⟨"Shopping", "milk", "Update Note", "inline-block"⟩, some 1⟩
      "Groceries" "eggs" 3000).1.store.get 1 = some ⟨1, "Groceries", "eggs", .parsed 3000⟩ :=
  (saveNote_replaces ⟨⟨[⟨1, "Shopping", "milk", .parsed 1000⟩], 2⟩,
        ⟨"Shopping", "milk", "Update Note", "inline-block"⟩, some 1⟩
      1 ⟨1, "Shopping", "milk", .parsed 1000⟩ "Groceries" "eggs" 3000 1000
      rfl (by decide) rfl (by decide)).2.1

/-- C6, as stated, fails. A note is created (id 1), opened for editing and
deleted; the page then has `editingNoteId = 1` and no note under id 1, and
`saveNote` creates a record under id 1 instead of leaving the store as it was. -/
theorem saveNote_missing_id_creates :
    (run asciiToLowerCase exampleHandlers Page.initial
      [.typeTitle "Shopping", .typeContent "milk", .saveClick 1000,
        .editClick 1, .deleteClick 1 true]).app.editingNoteId = some 1 ∧
    (run asciiToLowerCase exampleHandlers Page.initial
      [.typeTitle "Shopping", .typeContent "milk", .saveClick 1000,
        .editClick 1, .deleteClick 1 true]).app.store.get 1 = none ∧
    (run asciiToLowerCase exampleHandlers Page.initial
      [.typeTitle "Shopping", .typeContent "milk", .saveClick 1000,
        .editClick 1, .deleteClick 1 true]).app.store.records = [] ∧
    (saveNote (run asciiToLowerCase exampleHandlers Page.initial
      [.typeTitle "Shopping", .typeContent "milk", .saveClick 1000,
        .editClick 1, .deleteClick 1 true]).app "Shopping" "milk" 2000).1.store.records
      = [⟨1, "Shopping", "milk", .parsed 2000⟩] := by
  decide

/-- C6, amended. When the store holds no note under id `X`, `saveNote` with
`editingNoteId = X` succeeds and creates a record under `X` with the given
title and content and the current time as timestamp; the notes under every
other id are unchanged. -/
theorem saveNote_missing_id_inserts (app : App) (X : Nat) (title content : String)
    (now : Int) (hedit : app.editingNoteId = some X) (hnone : app.store.get X = none) :
    (saveNote app title content now).2 = .saved X ∧
    (saveNote app title content now).1.store.get X = some ⟨X, title, content, .parsed now⟩ ∧
    (∀ Y, Y ≠ X → (saveNote app title content now).1.store.get Y = app.store.get Y) ∧
    (saveNote app title content now).1.store.records.Perm
      (⟨X, title, content, .parsed now⟩ :: app.store.records) := by
  rw [saveNote_edit app title content now X hedit]
  refine ⟨rfl, ?_, ?_, ?_⟩
  · exact find_storeRecord_same app.store.records ⟨X, title, content, .parsed now⟩
  · intro Y hY
    exact find_storeRecord_other app.store.records ⟨X, title, content, .parsed now⟩ Y hY
  · simp only [clearForm]
    exact storeRecord_perm_of_absent app.store.records _
      (fun r hr => by
        have := List.find?_eq_none.mp hnone r hr
        simpa using this)

/-- Witness of C6, amended: the page after a note was created, opened for
editing and deleted. -/
theorem saveNote_missing_id_inserts_witness :
    (saveNote ⟨⟨[], 2⟩, ⟨"Shopping", "milk", "Update Note", "inline-block"⟩, some 1⟩
      "Shopping" "milk" 2000).1.store.get 1 = some ⟨1, "Shopping", "milk", .parsed 2000⟩ :=
  (saveNote_missing_id_inserts
      ⟨⟨[], 2⟩, ⟨"Shopping", "milk", "Update Note", "inline-block"⟩, some 1⟩
      1 "Shopping" "milk" 2000 rfl (by decide)).2.1

/-- C7. A confirmed `deleteNote(X)` succeeds; afterwards a lookup of `X`
returns nothing and the lookup of every other id returns what it returned
before; when there was no note under `X` the page, store included, is
unchanged. -/
theorem deleteNote_removes (app : App) (X : Nat) :
    (deleteNote app X true).2 = .succeeded ∧
    (deleteNote app X true).1.store.get X = none ∧
    (∀ Y, Y ≠ X → (deleteNote app X true).1.store.get Y = app.store.get Y) ∧
    (deleteNote app X true).1.store.records = app.store.records.filter (fun n => n.id != X) ∧
    (deleteNote app X true).1.store.keyGenerator = app.store.keyGenerator ∧
    (app.store.get X = none → (deleteNote app X true).1 = app) := by
  have hdel : deleteNote app X true = ({ app with store := app.store.delete X }, .succeeded) :=
    rfl
  rw [hdel]
  refine ⟨rfl, ?_, ?_, ?_, rfl, ?_⟩
  · simp only [ObjectStore.delete, ObjectStore.get]
    rw [List.find?_eq_none]
    intro n hn
    have := (List.mem_filter.mp hn).2
    simpa using this
  · intro Y hY
    simp only [ObjectStore.delete, ObjectStore.get]
    exact find_filter_other app.store.records X Y hY
  · rfl
  · intro hnone
    simp only [ObjectStore.delete]
    rw [find_none_filter app.store.records X hnone]

/-- Witness of C7: the scenario of the specification, `remove(1)`, and the
removal of an id that is not stored. -/
theorem deleteNote_removes_witness :
    (deleteNote ⟨⟨[⟨1, "Shopping", "milk", .parsed 1000⟩, ⟨2, "Work", "report", .parsed 2000⟩], 3⟩,
        ⟨"", "", "Save Note", "none"⟩, none⟩ 1 true).1.store.get 2
      = some ⟨2, "Work", "report", .parsed 2000⟩ ∧
    (deleteNote ⟨⟨[⟨2, "Work", "report", .parsed 2000⟩], 3⟩,
        ⟨"", "", "Save Note", "none"⟩, none⟩ 1 true).1
      = ⟨⟨[⟨2, "Work", "report", .parsed 2000⟩], 3⟩, ⟨"", "", "Save Note", "none"⟩, none⟩ :=
  ⟨(deleteNote_removes ⟨⟨[⟨1, "Shopping", "milk", .parsed 1000⟩,
        ⟨2, "Work", "report", .parsed 2000⟩], 3⟩, ⟨"", "", "Save Note", "none"⟩, none⟩
      1).2.2.1 2 (by decide),
   (deleteNote_removes ⟨⟨[⟨2, "Work", "report", .parsed 2000⟩], 3⟩,
      ⟨"", "", "Save Note", "none"⟩, none⟩ 1).2.2.2.2.2 (by decide)⟩

/-- C8: the code at the failing input. With only a note under id 2 in the
store, `editNote(1)` gets an empty result from its lookup and its success
callback throws a TypeError at `note.title`; the page is left as it was. -/
theorem editNote_missing_id_throws :
    editNote ⟨⟨[⟨2, "Work", "report", .parsed 2000⟩], 3⟩,
        ⟨"", "", "Save Note", "none"⟩, none⟩ 1
      = (⟨⟨[⟨2, "Work", "report", .parsed 2000⟩], 3⟩, ⟨"", "", "Save Note", "none"⟩, none⟩,
          .typeError) :=
  editNote_absent _ 1 (by decide)

/-- C9: the code at the failing input. When the title typed into the form is
markup whose inline handler calls `saveNote('', '')`, the save listener
accepts it (its trimmed value is not empty), the note is stored under id 1
and displayed, the handler runs, and the store then holds under id 2 a note
with empty title and empty content. -/
theorem markup_title_stores_empty_note (toLowerCase : String → String)
    (handlers : String → List Call) (title content : String) (now later : Int)
    (htitle : trim title ≠ "") (hcontent : trim content ≠ "")
    (hmarkup : Call.saveNote "" "" ∈ handlers (trim title)) :
    (run toLowerCase handlers Page.initial
      [.typeTitle title, .typeContent content, .saveClick now,
        .inlineHandler (.saveNote "" "") later]).app.store.records
      = [⟨1, trim title, trim content, .parsed now⟩, ⟨2, "", "", .parsed later⟩] := by
  have hsave : saveBtnClick
      ⟨ObjectStore.empty, ⟨title, content, "Save Note", "none"⟩, none⟩ now
      = (⟨⟨[⟨1, trim title, trim content, .parsed now⟩], 2⟩,
          ⟨"", "", "Save Note", "none"⟩, none⟩, .saved 1) := by
    rw [(saveBtnClick_guard _ now).2 htitle hcontent]
    rfl
  have hshown : loadNotes toLowerCase ⟨[⟨1, trim title, trim content, .parsed now⟩], 2⟩ ""
      = [⟨1, trim title, trim content, .parsed now⟩] := rfl
  have hstep3 : run toLowerCase handlers Page.initial
      [.typeTitle title, .typeContent content, .saveClick now]
      = ⟨⟨⟨[⟨1, trim title, trim content, .parsed now⟩], 2⟩,
          ⟨"", "", "Save Note", "none"⟩, none⟩,
         [⟨1, trim title, trim content, .parsed now⟩]⟩ := by
    simp only [run, List.foldl, step, Page.initial, App.initial]
    rw [hsave]
    simp only [afterSave, hshown]
  have henabled : handlerEnabled handlers
      ⟨⟨⟨[⟨1, trim title, trim content, .parsed now⟩], 2⟩,
          ⟨"", "", "Save Note", "none"⟩, none⟩,
         [⟨1, trim title, trim content, .parsed now⟩]⟩ (.saveNote "" "") = true := by
    simp [handlerEnabled, markupTexts, hmarkup]
  have hrun : run toLowerCase handlers Page.initial
      [.typeTitle title, .typeContent content, .saveClick now,
        .inlineHandler (.saveNote "" "") later]
      = step toLowerCase handlers (run toLowerCase handlers Page.initial
          [.typeTitle title, .typeContent content, .saveClick now])
          (.inlineHandler (.saveNote "" "") later) := rfl
  rw [hrun, hstep3]
  simp only [step, henabled, if_true, runCall, afterSave_app]
  rfl

/-- Witness of C9: the title `<img src=x onerror="saveNote('','')">`, whose
image does not load. -/
theorem markup_title_stores_empty_note_witness :
    (run asciiToLowerCase exampleHandlers Page.initial
      [.typeTitle "<img src=x onerror=\"saveNote('','')\">", .typeContent "x", .saveClick 1000,
        .inlineHandler (.saveNote "" "") 1001]).app.store.records
      = [⟨1, trim "<img src=x onerror=\"saveNote('','')\">", trim "x", .parsed 1000⟩,
         ⟨2, "", "", .parsed 1001⟩] :=
  markup_title_stores_empty_note asciiToLowerCase exampleHandlers
    "<img src=x onerror=\"saveNote('','')\">" "x" 1000 1001
    (by decide) (by decide) (by decide)

/-- A run with a rejected and an accepted click on the save button stores one
note, the second click's, trimmed. -/
theorem run_scenario :
    (run asciiToLowerCase exampleHandlers Page.initial
      [.typeContent "milk", .saveClick 500, .typeTitle " Shopping ",
        .saveClick 1000]).app.store = ⟨[⟨1, "Shopping", "milk", .parsed 1000⟩], 2⟩ := by
  decide

/-- The save listener on the fresh page stores the trimmed fields under id 1. -/
theorem saveBtnClick_scenario :
    (saveBtnClick ⟨ObjectStore.empty, ⟨" Shopping ", "milk\n", "Save Note", "none"⟩, none⟩
      1000).1.store = ⟨[⟨1, "Shopping", "milk", .parsed 1000⟩], 2⟩ := by
  decide

/-! ## Claims on `initDB` -/

/-- C10. The schema setup is idempotent. On every database the upgrade callback
succeeds, and running it again on its result succeeds and changes nothing;
when `initDB` has succeeded, a second `initDB` succeeds with the same
database, so the same schema and the same stored notes; the first `initDB`
keeps every object store it finds; and from no database, or from a database
whose schema is the one `notes` store with its one `title` index, the schema
afterwards is exactly that. `initDB` succeeds whenever the stored version is
not above `DB_VERSION`. -/
theorem initDB_idempotent :
    (∀ d : Database, ∃ d1, onupgradeneeded d = .ok d1 ∧ onupgradeneeded d1 = .ok d1 ∧
      ∀ s ∈ d.objectStores, s ∈ d1.objectStores) ∧
    (∀ disk : Option Database, (disk.getD ⟨0, []⟩).version ≤ DB_VERSION →
      ∃ db, initDB disk = .ok db) ∧
    (∀ (disk : Option Database) (db : Database), initDB disk = .ok db →
      initDB (some db) = .ok db ∧
      (∀ d, disk = some d → ∀ s ∈ d.objectStores, s ∈ db.objectStores) ∧
      ((disk = none ∨ ∃ d, disk = some d ∧
          d.schema = [("notes", "id", true, [⟨"title", "title", false⟩])]) →
        db.schema = [("notes", "id", true, [⟨"title", "title", false⟩])])) := by
  refine ⟨fun d => onupgradeneeded_twice d, ?_, ?_⟩
  · intro disk hle
    unfold initDB
    simp only
    rw [if_neg (Nat.not_lt.mpr hle)]
    split_ifs
    · obtain ⟨d1, h1, -⟩ := onupgradeneeded_twice
        { (disk.getD ⟨0, []⟩) with version := DB_VERSION }
      exact ⟨d1, h1⟩
    · exact ⟨_, rfl⟩
  intro disk db h
  unfold initDB at h
  simp only at h
  split_ifs at h with h1 h2
  · -- the stored version is below `DB_VERSION`: the upgrade callback ran
    obtain ⟨hcases, hver⟩ := onupgradeneeded_ok _ _ h
    simp only at hver
    have hdb : initDB (some db) = .ok db := by
      unfold initDB
      simp only [Option.getD_some, hver, DB_VERSION, Nat.lt_irrefl, if_false]
    refine ⟨hdb, ?_, ?_⟩
    · intro d hd s hs
      subst hd
      simp only [Option.getD_some] at hcases
      rcases hcases with ⟨-, hc⟩ | ⟨-, hc⟩
      · rw [hc]
        exact hs
      · rw [hc]
        exact List.mem_append_left _ hs
    · rintro (hnone | ⟨d, hd, hschema⟩)
      · subst hnone
        simp only [Option.getD_none] at hcases
        rcases hcases with ⟨hc, -⟩ | ⟨-, hc⟩
        · simp [Database.containsStore] at hc
        · simp [Database.schema, hc, STORE_NAME]
      · subst hd
        simp only [Option.getD_some] at hcases
        have hcont := containsStore_of_schema d hschema
        rcases hcases with ⟨-, hc⟩ | ⟨hc, -⟩
        · simpa [Database.schema, hc] using hschema
        · simp only [Database.containsStore] at hc hcont
          rw [hcont] at hc
          cases hc
  · -- the stored version is `DB_VERSION`: the database is opened as it is
    simp only [Except.ok.injEq] at h
    have hver : db.version = DB_VERSION := by
      rw [← h]
      exact Nat.le_antisymm (Nat.le_of_not_lt h1) (Nat.le_of_not_lt h2)
    have hdb : initDB (some db) = .ok db := by
      unfold initDB
      simp only [Option.getD_some, hver, DB_VERSION, Nat.lt_irrefl, if_false]
    refine ⟨hdb, ?_, ?_⟩
    · intro d hd s hs
      subst hd
      simp only [Option.getD_some] at h
      rw [← h]
      exact hs
    · rintro (hnone | ⟨d, hd, hschema⟩)
      · subst hnone
        simp only [Option.getD_none] at h2
        exact absurd (by decide) h2
      · subst hd
        simp only [Option.getD_some] at h
        rw [← h]
        exact hschema

/-- Witness of C10: `initDB` on no database creates the `notes` store, and a
second `initDB` returns the same database. -/
theorem initDB_idempotent_witness :
    initDB (some ⟨1, [⟨"notes", "id", true, [⟨"title", "title", false⟩], ObjectStore.empty⟩]⟩)
      = .ok ⟨1, [⟨"notes", "id", true, [⟨"title", "title", false⟩], ObjectStore.empty⟩]⟩ ∧
    Database.schema ⟨1, [⟨"notes", "id", true, [⟨"title", "title", false⟩], ObjectStore.empty⟩]⟩
      = [("notes", "id", true, [⟨"title", "title", false⟩])] :=
  ⟨(initDB_idempotent.2.2 none
      ⟨1, [⟨"notes", "id", true, [⟨"title", "title", false⟩], ObjectStore.empty⟩]⟩
      rfl).1,
   (initDB_idempotent.2.2 none
      ⟨1, [⟨"notes", "id", true, [⟨"title", "title", false⟩], ObjectStore.empty⟩]⟩
      rfl).2.2 (Or.inl rfl)⟩

end NotesDB
